import Mathlib

/-!
Verification of the BaseLib thread-pool scheduling core against its
specification.  The C++ sources under `BaseLib/task/`, `BaseLib/memory/` and
`BaseLib/system/` are shallowly embedded as Lean definitions: pure functions
become Lean functions, global mutable state (`g_thread_pool`, `g_tick_clock`)
becomes explicit state passing, machine integers become `Nat`/`Int` with an
explicit modulus where overflow matters, and `DCHECK`-guarded operations
return `Option`.  Components whose implementation files are absent from the
source tree (TaskTracker, Sequence, the bodies of `SequenceSortKey::operator<=`
and `DelayedTaskManager`) are modelled from the specification's own wording;
their doc comments say so explicitly.
-/

namespace BaseLib

/-- Modulus of the C++ `uint64_t` type used by `EnqueueOrderGenerator`. -/
def UINT64_LIMIT : Nat := 2 ^ 64

namespace EnqueueOrderGenerator

/-- Modelled from the spec: `enqueue_order.h` is absent from the source tree.
`enqueue_order.cpp` initializes the generator's counter to
`EnqueueOrder::kFirst`, the first valid enqueue order (smaller values are
reserved sentinels).  The concrete constant does not matter: every theorem
below holds for any initial value below `2 ^ 64`. -/
def kFirst : Nat := 2

/-- Embeds `EnqueueOrderGenerator::GenerateNext` from
`task/sequence_manager/enqueue_order_generator.h`:
`std::atomic_fetch_add_explicit(&counter_, uint64_t(1), relaxed)` returns the
previous counter value and stores the incremented value with `uint64_t`
wraparound.  The state is the current value of `counter_` (kept below
`2 ^ 64`); the first component is the returned `EnqueueOrder`, the second the
new counter. -/
def GenerateNext (counter : Nat) : Nat × Nat :=
  (counter, (counter + 1) % UINT64_LIMIT)

/-- Value of `counter_` after `n` calls to `GenerateNext` on a freshly
constructed generator. -/
def counterAfter : Nat → Nat
  | 0 => kFirst
  | n + 1 => (GenerateNext (counterAfter n)).2

/-- The `EnqueueOrder` returned by call number `n` (0-based) on a freshly
constructed generator. -/
def valueAt (n : Nat) : Nat := (GenerateNext (counterAfter n)).1

end EnqueueOrderGenerator

/-- Embeds `ThreadPoolInstance::InitParams` from
`task/thread_pool/thread_pool.cpp` (only the field the claims need). -/
structure InitParams where
  max_num_foreground_threads : Int

namespace ThreadPoolInstance

/-- Embeds `ThreadPoolInstance::StartWithDefaultParams`:
`const auto max_num_foreground_threads = std::max(3, num_cores - 1);
Start({ max_num_foreground_threads });` where
`num_cores = SysInfo::NumberOfProcessors()` (an `int`, passed here as a
parameter because it is read from the OS). -/
def StartWithDefaultParams (num_cores : Int) : InitParams :=
  { max_num_foreground_threads := max 3 (num_cores - 1) }

end ThreadPoolInstance

/-- The fence toggles of the process-wide thread pool, the part of
`ThreadPoolInstance` state that `ScopedExecutionFence` and
`ScopedBestEffortExecutionFence` mutate (the concrete `ThreadPoolImpl`
forwards each flag to its `TaskTracker`). -/
structure ThreadPoolFences where
  has_fence : Bool
  has_best_effort_fence : Bool

/-- Embeds the effect of `ThreadPoolInstance::SetHasFence(bool)` on the fence
state. -/
def SetHasFence (p : ThreadPoolFences) (b : Bool) : ThreadPoolFences :=
  { p with has_fence := b }

/-- Embeds the effect of `ThreadPoolInstance::SetHasBestEffortFence(bool)` on
the fence state. -/
def SetHasBestEffortFence (p : ThreadPoolFences) (b : Bool) : ThreadPoolFences :=
  { p with has_best_effort_fence := b }

namespace ScopedExecutionFence

/-- Embeds `ThreadPoolInstance::ScopedExecutionFence::ScopedExecutionFence()`
from `task/thread_pool/thread_pool.cpp`:
`DCHECK(g_thread_pool); g_thread_pool->SetHasFence(true);`.
The argument is the global `g_thread_pool` (absent = `nullptr`); the result is
`none` when the `DCHECK` fails because no process-wide instance exists. -/
def construct : Option ThreadPoolFences → Option (Option ThreadPoolFences)
  | none => none
  | some p => some (some (SetHasFence p true))

/-- Embeds `~ScopedExecutionFence()`:
`DCHECK(g_thread_pool); g_thread_pool->SetHasFence(false);`. -/
def destruct : Option ThreadPoolFences → Option (Option ThreadPoolFences)
  | none => none
  | some p => some (some (SetHasFence p false))

/-- A full construct-then-destroy lifetime of a `ScopedExecutionFence`. -/
def lifetime (g : Option ThreadPoolFences) : Option (Option ThreadPoolFences) :=
  (construct g).bind destruct

end ScopedExecutionFence

namespace ScopedBestEffortExecutionFence

/-- Embeds `ScopedBestEffortExecutionFence::ScopedBestEffortExecutionFence()`:
`DCHECK(g_thread_pool); g_thread_pool->SetHasBestEffortFence(true);`. -/
def construct : Option ThreadPoolFences → Option (Option ThreadPoolFences)
  | none => none
  | some p => some (some (SetHasBestEffortFence p true))

/-- Embeds `~ScopedBestEffortExecutionFence()`:
`DCHECK(g_thread_pool); g_thread_pool->SetHasBestEffortFence(false);`. -/
def destruct : Option ThreadPoolFences → Option (Option ThreadPoolFences)
  | none => none
  | some p => some (some (SetHasBestEffortFence p false))

/-- A full construct-then-destroy lifetime of a
`ScopedBestEffortExecutionFence`. -/
def lifetime (g : Option ThreadPoolFences) : Option (Option ThreadPoolFences) :=
  (construct g).bind destruct

end ScopedBestEffortExecutionFence

/-- The global registration state around `g_thread_pool` in
`task/thread_pool/thread_pool.cpp`.  Instances are tracked by identity
(a `Nat` id); `destroyed` records, in order, the instances freed by
`ThreadPoolInstance::Set` (`delete g_thread_pool`). -/
structure ThreadPoolGlobal where
  g_thread_pool : Option Nat
  destroyed : List Nat

/-- The state before any `Create`/`Set`: `ThreadPoolInstance* g_thread_pool =
nullptr;`. -/
def ThreadPoolGlobal.init : ThreadPoolGlobal :=
  { g_thread_pool := none, destroyed := [] }

/-- Embeds `ThreadPoolInstance::Set`:
`delete g_thread_pool; g_thread_pool = thread_pool.release();`
(`delete nullptr` is a no-op, hence `Option.toList`). -/
def ThreadPoolInstance.Set (tp : Nat) (s : ThreadPoolGlobal) : ThreadPoolGlobal :=
  { g_thread_pool := some tp, destroyed := s.destroyed ++ s.g_thread_pool.toList }

/-- Embeds `ThreadPoolInstance::Get`: `return g_thread_pool;`. -/
def ThreadPoolInstance.Get (s : ThreadPoolGlobal) : Option Nat :=
  s.g_thread_pool

/-- A `TickClock` collaborator, reduced to the value its `NowTicks()` returns
at the instant of a call (`tick_clock.h` is a pure virtual interface). -/
structure TickClock where
  now_ticks : Int

namespace ThreadPoolClock

/-- Embeds the `ThreadPoolClock` constructor from
`task/thread_pool/thread_pool_clock.cpp`:
`DCHECK(!g_tick_clock); g_tick_clock = tick_clock;`.
Returns `none` when the `DCHECK` fails (a clock is already installed),
otherwise the new value of `g_tick_clock`. -/
def construct : Option TickClock → TickClock → Option (Option TickClock)
  | none, c => some (some c)
  | some _, _ => none

/-- Embeds `~ThreadPoolClock()`: `DCHECK(g_tick_clock); g_tick_clock =
nullptr;`. -/
def destruct : Option TickClock → Option (Option TickClock)
  | none => none
  | some _ => some none

/-- Embeds the static `ThreadPoolClock::Now()`:
`return g_tick_clock ? g_tick_clock->NowTicks() : TimeTicks::Now();`.
`real_now` is the value `TimeTicks::Now()` would return at this instant. -/
def Now (g_tick_clock : Option TickClock) (real_now : Int) : Int :=
  match g_tick_clock with
  | some c => c.now_ticks
  | none => real_now

end ThreadPoolClock

/-- The shutdown phases of the `TaskTracker` state machine (spec section 4.3). -/
inductive ShutdownState
  | RUNNING
  | SHUTDOWN_REQUESTED
  | COMPLETE
deriving DecidableEq

/-- The `TaskShutdownBehavior` trait of a posted task. -/
inductive TaskShutdownBehavior
  | CONTINUE_ON_SHUTDOWN
  | SKIP_ON_SHUTDOWN
  | BLOCK_SHUTDOWN
deriving DecidableEq

/-- The part of `TaskTracker` state that `WillPostTask` reads and writes:
the shutdown phase and the outstanding-task counter. -/
structure TaskTracker where
  shutdown_state : ShutdownState
  num_incomplete_undelayed_tasks : Nat

/-- Modelled from the spec: `task_tracker.h`/`task_tracker.cc` are absent from
the source tree.  Spec 4.3: `WillPostTask(task, shutdown_behavior)` returns
false (task silently dropped) if the pool is in COMPLETE state, or in
SHUTDOWN_REQUESTED and the task's shutdown_behavior is not BLOCK_SHUTDOWN;
otherwise it increments an outstanding-task counter and returns true.  The
first component is the returned boolean, the second the tracker afterwards. -/
def TaskTracker.WillPostTask (t : TaskTracker) (behavior : TaskShutdownBehavior) :
    Bool × TaskTracker :=
  if t.shutdown_state = .COMPLETE ∨
      (t.shutdown_state = .SHUTDOWN_REQUESTED ∧ behavior ≠ .BLOCK_SHUTDOWN) then
    (false, t)
  else
    (true, { t with num_incomplete_undelayed_tasks := t.num_incomplete_undelayed_tasks + 1 })

/-- The `TaskPriority` enum of `TaskTraits` (spec section 3): BEST_EFFORT,
USER_VISIBLE, USER_BLOCKING, in increasing order of importance. -/
inductive TaskPriority
  | BEST_EFFORT
  | USER_VISIBLE
  | USER_BLOCKING
deriving DecidableEq

/-- Numeric value of the `TaskPriority` enumerator; a higher value means more
important. -/
def TaskPriority.toNat : TaskPriority → Nat
  | .BEST_EFFORT => 0
  | .USER_VISIBLE => 1
  | .USER_BLOCKING => 2

/-- Embeds `SequenceSortKey` from `task/thread_pool/sequence_sort_key.h`:
an immutable (priority, next_task_sequenced_time) pair.  `TimeTicks` is
embedded as `Int` (a tick count). -/
structure SequenceSortKey where
  priority : TaskPriority
  next_task_sequenced_time : Int

/-- Modelled from the spec: `sequence_sort_key.cpp` (the body of
`SequenceSortKey::operator<=`) is absent from the source tree; the header
documents "Lower sort key means more important." and the spec says "Total
order: lower priority-enum-as-more-important wins; ties broken by earlier
sequenced time."  `leq a b` means `a <= b`: `a` sorts at or before `b`, i.e.
`a` has a more important priority, or the same priority and an
earlier-or-equal sequenced time. -/
def SequenceSortKey.leq (a b : SequenceSortKey) : Bool :=
  if a.priority = b.priority then
    decide (a.next_task_sequenced_time ≤ b.next_task_sequenced_time)
  else
    decide (b.priority.toNat < a.priority.toNat)

/-- Embeds the reference-count state of
`base::subtle::RefCountedThreadSafeBase` from `memory/ref_counted.h`:
`mutable AtomicRefCount ref_count_{ 0 };`. -/
structure RefCountedThreadSafeBase where
  ref_count : Nat

/-- Embeds `RefCountedThreadSafeBase::AddRefImpl`: `ref_count_.Increment();`. -/
def RefCountedThreadSafeBase.AddRef (o : RefCountedThreadSafeBase) :
    RefCountedThreadSafeBase :=
  { ref_count := o.ref_count + 1 }

/-- Embeds `RefCountedThreadSafeBase::ReleaseImpl`:
`if (!ref_count_.Decrement()) return true; return false;` where
`AtomicRefCount::Decrement` (from `atomic_ref_count.h`, absent from the source
tree, modelled from its standard contract) decrements and reports whether the
result is nonzero.  The `DCHECK(!ref_count_.IsZero())` precondition appears as
the hypothesis `1 ≤ ref_count` of the theorems below.  First component: the
object should self-delete; second: the state afterwards. -/
def RefCountedThreadSafeBase.ReleaseImpl (o : RefCountedThreadSafeBase) :
    Bool × RefCountedThreadSafeBase :=
  (decide (o.ref_count - 1 = 0), { ref_count := o.ref_count - 1 })

/-- Embeds `RefCountedThreadSafe<T>::Release`:
`if (RefCountedThreadSafeBase::Release()) Traits::Destruct(this);` where the
base `Release()` on x86 is `return ReleaseImpl();`.  The first component is
true exactly when `Traits::Destruct` is invoked. -/
def RefCountedThreadSafe.Release (o : RefCountedThreadSafeBase) :
    Bool × RefCountedThreadSafeBase :=
  RefCountedThreadSafeBase.ReleaseImpl o

/-- One delayed task as held by `DelayedTaskManager` (the `Task` of
`task/thread_pool/task.h`, reduced to the fields the claim needs): an
identity, the posting time and the requested delay, both as tick counts. -/
structure DelayedTask where
  id : Nat
  post_time : Int
  delay : Int

/-- The task's `delayed_run_time`, computed at post time as
`post time + delay`. -/
def DelayedTask.delayed_run_time (t : DelayedTask) : Int :=
  t.post_time + t.delay

/-- Whether the task is ripe at time `now`: `delayed_run_time <= now`
(the pop condition of `ProcessRipeTasks`). -/
def DelayedTask.ripeBy (t : DelayedTask) (now : Int) : Bool :=
  decide (t.delayed_run_time ≤ now)

/-- Modelled from the spec: `delayed_task_manager.cc` is absent from the
source tree.  The min-heap `delayed_task_queue_` keyed by `delayed_run_time`
(`DelayedTask::operator<=` compares `task.delayed_run_time`) is modelled as a
list kept sorted by `delayed_run_time`: heap pops yield entries in key order.
`insertByRunTime` places a new entry at its key position. -/
def insertByRunTime (t : DelayedTask) : List DelayedTask → List DelayedTask
  | [] => [t]
  | u :: rest =>
    if t.delayed_run_time ≤ u.delayed_run_time then t :: u :: rest
    else u :: insertByRunTime t rest

/-- The `DelayedTaskManager` state the claim needs: the delayed-task queue. -/
structure DelayedTaskManager where
  delayed_task_queue : List DelayedTask

/-- Modelled from the spec: `AddDelayedTask` "inserts into a min-heap keyed by
`task.delayed_run_time`".  The post-now callback and keep-alive task-runner
reference do not affect the ordering claim and are omitted. -/
def DelayedTaskManager.AddDelayedTask (m : DelayedTaskManager) (t : DelayedTask) :
    DelayedTaskManager :=
  { delayed_task_queue := insertByRunTime t m.delayed_task_queue }

/-- Modelled from the spec: `ProcessRipeTasks()` "pops all heap entries whose
delayed_run_time ≤ now, invokes each one's post_now_callback".  The first
component lists the forwarded tasks in the order their callbacks are invoked
(heap pop order); the second is the manager afterwards. -/
def DelayedTaskManager.ProcessRipeTasks (m : DelayedTaskManager) (now : Int) :
    List DelayedTask × DelayedTaskManager :=
  (m.delayed_task_queue.takeWhile (fun t => t.ripeBy now),
   { delayed_task_queue := m.delayed_task_queue.dropWhile (fun t => t.ripeBy now) })

/-- The queue is ordered by non-decreasing `delayed_run_time` (the heap
invariant of `delayed_task_queue_`, and the forwarding-order property of the
claim). -/
def RunTimeOrdered (l : List DelayedTask) : Prop :=
  l.Sorted (fun a b => a.delayed_run_time ≤ b.delayed_run_time)

/-- Scheduling state of one `Sequence` together with the workers acting on it.
Tasks are tracked by identity (`Nat`).  `posted` records every task ever
posted, in posting order; `queue` is the Sequence's FIFO of not-yet-taken
tasks; `inflight` lists tasks currently being executed by some worker;
`executed` records completed tasks in completion order; `has_worker` is the
Sequence's single-worker token (`has_worker_`, handed out by `WillRunTask`). -/
structure SequenceSchedState where
  posted : List Nat
  queue : List Nat
  inflight : List Nat
  executed : List Nat
  has_worker : Bool

/-- A freshly created Sequence: nothing posted, no worker attached. -/
def SequenceSchedState.init : SequenceSchedState :=
  { posted := [], queue := [], inflight := [], executed := [], has_worker := false }

/-- Modelled from the spec: `sequence.h`/`sequence.cc` are absent from the
source tree.  Spec section 3: a Sequence is "an ordered container of Tasks
(FIFO).  Concurrency = 1.  Mutated only by the thread currently running it".
One nondeterministic scheduling step: `post` appends a task to the FIFO
(PushTask); `take` lets any idle worker acquire the Sequence's single-worker
token and pop the front task (WillRunTask/TakeTask) — possible only while no
other worker holds the token; `complete` lets the worker finish its task and
return the token (DidProcessTask).  An arbitrary number of worker threads is
modelled by the free interleaving of steps. -/
inductive SequenceStep : SequenceSchedState → SequenceSchedState → Prop
  | post (s : SequenceSchedState) (t : Nat) :
      SequenceStep s { s with posted := s.posted ++ [t], queue := s.queue ++ [t] }
  | take (s : SequenceSchedState) (t : Nat) (rest : List Nat) :
      s.has_worker = false → s.queue = t :: rest →
      SequenceStep s
        { s with queue := rest, inflight := s.inflight ++ [t], has_worker := true }
  | complete (s : SequenceSchedState) (t : Nat) (rest : List Nat) :
      s.inflight = t :: rest →
      SequenceStep s
        { s with inflight := rest, executed := s.executed ++ [t], has_worker := false }

/-- States reachable from a freshly created Sequence by any interleaving of
posts, takes and completions. -/
inductive SequenceReachable : SequenceSchedState → Prop
  | init : SequenceReachable SequenceSchedState.init
  | step {s s' : SequenceSchedState} :
      SequenceReachable s → SequenceStep s s' → SequenceReachable s'

/-- The inductive invariant of the Sequence transition system: every posted
task is accounted for exactly once, in order (completed, then in flight, then
queued); at most one task is in flight; and a task can be in flight only while
the single-worker token is held. -/
def SequenceInv (s : SequenceSchedState) : Prop :=
  s.executed ++ s.inflight ++ s.queue = s.posted ∧
  s.inflight.length ≤ 1 ∧
  (s.has_worker = false → s.inflight = [])

/-! Theorems. -/

theorem counterAfter_closed_form (n : Nat) :
    EnqueueOrderGenerator.counterAfter n =
      (EnqueueOrderGenerator.kFirst + n) % UINT64_LIMIT := by
  induction n with
  | zero => decide
  | succ n ih =>
    show (EnqueueOrderGenerator.counterAfter n + 1) % UINT64_LIMIT = _
    rw [ih, Nat.mod_add_mod, Nat.add_assoc]

theorem valueAt_closed_form (n : Nat) :
    EnqueueOrderGenerator.valueAt n =
      (EnqueueOrderGenerator.kFirst + n) % UINT64_LIMIT :=
  counterAfter_closed_form n

/-- C7: constructing a `ScopedExecutionFence` sets the global fence
(`SetHasFence(true)`) and destroying it clears it (`SetHasFence(false)`), so a
full construct-then-destroy lifetime leaves the fence toggle cleared;
`ScopedBestEffortExecutionFence` does the same through
`SetHasBestEffortFence`; and both constructor and destructor require a
process-wide thread pool instance to exist (they fail on `none`). -/
theorem C7_scoped_execution_fence_toggles (p : ThreadPoolFences) :
    ScopedExecutionFence.construct (some p) = some (some (SetHasFence p true)) ∧
    ScopedExecutionFence.lifetime (some p) = some (some (SetHasFence p false)) ∧
    (SetHasFence p true).has_fence = true ∧
    (SetHasFence p false).has_fence = false ∧
    ScopedExecutionFence.construct none = none ∧
    ScopedExecutionFence.destruct none = none ∧
    ScopedBestEffortExecutionFence.construct (some p) =
      some (some (SetHasBestEffortFence p true)) ∧
    ScopedBestEffortExecutionFence.lifetime (some p) =
      some (some (SetHasBestEffortFence p false)) ∧
    (SetHasBestEffortFence p true).has_best_effort_fence = true ∧
    (SetHasBestEffortFence p false).has_best_effort_fence = false ∧
    ScopedBestEffortExecutionFence.construct none = none ∧
    ScopedBestEffortExecutionFence.destruct none = none :=
  ⟨rfl, rfl, rfl, rfl, rfl, rfl, rfl, rfl, rfl, rfl, rfl, rfl⟩

/-- C8: at most one process-wide `ThreadPoolInstance` is registered at any
instant (the global is a single `Option`): before any `Set`, `Get` returns
null; `Set p` destroys exactly the previously registered instance (if any) and
installs `p`; afterwards `Get` returns the most recently installed instance,
also across successive `Set`s. -/
theorem C8_thread_pool_instance_registration (p q : Nat) (s : ThreadPoolGlobal) :
    ThreadPoolInstance.Get ThreadPoolGlobal.init = none ∧
    ThreadPoolInstance.Get (ThreadPoolInstance.Set p s) = some p ∧
    (ThreadPoolInstance.Set p s).destroyed =
      s.destroyed ++ (ThreadPoolInstance.Get s).toList ∧
    ThreadPoolInstance.Get (ThreadPoolInstance.Set q (ThreadPoolInstance.Set p s)) =
      some q ∧
    (ThreadPoolInstance.Set q (ThreadPoolInstance.Set p s)).destroyed =
      s.destroyed ++ (ThreadPoolInstance.Get s).toList ++ [p] :=
  ⟨rfl, rfl, rfl, rfl, rfl⟩

/-- C9: while a `ThreadPoolClock` constructed with a `TickClock` is alive
(the injected clock is installed in `g_tick_clock`), every call to
`ThreadPoolClock::Now()` returns exactly the injected clock's `NowTicks()`,
whatever the real time is; when no clock is installed, `Now()` returns the
real `TimeTicks::Now()`. -/
theorem C9_thread_pool_clock_now (c : TickClock) (real_now : Int) :
    ThreadPoolClock.construct none c = some (some c) ∧
    ThreadPoolClock.Now (some c) real_now = c.now_ticks ∧
    ThreadPoolClock.Now none real_now = real_now :=
  ⟨rfl, rfl, rfl⟩

/-- C10: `StartWithDefaultParams` starts the pool with
`max_num_foreground_threads = max(3, num_cores - 1)`, so the default
foreground worker cap is never below 3, for any processor count. -/
theorem C10_start_with_default_params_cap (num_cores : Int) :
    (ThreadPoolInstance.StartWithDefaultParams num_cores).max_num_foreground_threads =
      max 3 (num_cores - 1) ∧
    3 ≤ (ThreadPoolInstance.StartWithDefaultParams num_cores).max_num_foreground_threads :=
  ⟨rfl, le_max_left 3 _⟩

/-- C1 counterexample: the claim as stated fails once the 64-bit counter
wraps.  On a fresh generator, call number `2 ^ 64 - kFirst` is a later call
than call number 0, yet it returns 0 while call number 0 returned `kFirst`:
the later value is not strictly greater than the earlier one. -/
theorem C1_counterexample_uint64_wrap :
    0 < UINT64_LIMIT - EnqueueOrderGenerator.kFirst ∧
    ¬ (EnqueueOrderGenerator.valueAt 0 <
        EnqueueOrderGenerator.valueAt (UINT64_LIMIT - EnqueueOrderGenerator.kFirst)) := by
  have h0 : EnqueueOrderGenerator.valueAt 0 = 2 := by decide
  have h1 : EnqueueOrderGenerator.valueAt (UINT64_LIMIT - EnqueueOrderGenerator.kFirst) = 0 := by
    rw [valueAt_closed_form]
    show (2 + (UINT64_LIMIT - 2)) % UINT64_LIMIT = 0
    have h2 : (2 : Nat) ≤ UINT64_LIMIT := by
      show (2 : Nat) ≤ 2 ^ 64
      exact Nat.le_of_lt (by norm_num)
    rw [← Nat.add_sub_assoc h2, Nat.add_sub_cancel_left, Nat.mod_self]
  rw [h0, h1]
  refine ⟨?_, by omega⟩
  show 0 < 2 ^ 64 - 2
  norm_num

/-- C1 (amended): every call to `GenerateNext()` on one generator returns a
value strictly greater than every value returned by any earlier call (hence no
value is returned twice), provided the 64-bit counter has not wrapped, i.e.
for call indices `j` with `kFirst + j < 2 ^ 64` (about 1.8e19 calls; a later
call can return a smaller or repeated value only after the counter wraps). -/
theorem C1_generate_next_strictly_increasing (i j : Nat) (hij : i < j)
    (hj : EnqueueOrderGenerator.kFirst + j < UINT64_LIMIT) :
    EnqueueOrderGenerator.valueAt i < EnqueueOrderGenerator.valueAt j := by
  rw [valueAt_closed_form, valueAt_closed_form,
    Nat.mod_eq_of_lt (by omega), Nat.mod_eq_of_lt hj]
  omega

/-- Witness for the amended C1 theorem at calls 0 and 1. -/
theorem C1_generate_next_strictly_increasing_witness :
    0 < 1 ∧ EnqueueOrderGenerator.kFirst + 1 < UINT64_LIMIT ∧
    EnqueueOrderGenerator.valueAt 0 < EnqueueOrderGenerator.valueAt 1 :=
  ⟨Nat.zero_lt_one, by decide,
    C1_generate_next_strictly_increasing 0 1 Nat.zero_lt_one (by decide)⟩

/-- C3: `WillPostTask` returns false exactly when the tracker is COMPLETE, or
is SHUTDOWN_REQUESTED with a shutdown behavior other than BLOCK_SHUTDOWN; on a
false return the tracker (including its outstanding-task counter) is
unchanged; in every other case it returns true and increments the
outstanding-task counter, leaving the shutdown state alone. -/
theorem C3_will_post_task_admission (t : TaskTracker) (b : TaskShutdownBehavior) :
    ((t.WillPostTask b).1 = false ↔
      (t.shutdown_state = .COMPLETE ∨
        (t.shutdown_state = .SHUTDOWN_REQUESTED ∧ b ≠ .BLOCK_SHUTDOWN))) ∧
    ((t.WillPostTask b).1 = false → (t.WillPostTask b).2 = t) ∧
    ((t.WillPostTask b).1 = true →
      (t.WillPostTask b).2.num_incomplete_undelayed_tasks =
        t.num_incomplete_undelayed_tasks + 1 ∧
      (t.WillPostTask b).2.shutdown_state = t.shutdown_state) := by
  by_cases h : t.shutdown_state = .COMPLETE ∨
      (t.shutdown_state = .SHUTDOWN_REQUESTED ∧ b ≠ .BLOCK_SHUTDOWN) <;>
    simp [TaskTracker.WillPostTask, h]

/-- C4: `SequenceSortKey::operator<=` is total — for every pair of keys,
`a <= b` or `b <= a` — and `a <= b` holds exactly when `a`'s priority enum is
more important than `b`'s, or the two priorities are equal and `a`'s
`next_task_sequenced_time` is earlier or equal. -/
theorem C4_sequence_sort_key_total_order (a b : SequenceSortKey) :
    (a.leq b = true ∨ b.leq a = true) ∧
    (a.leq b = true ↔
      (b.priority.toNat < a.priority.toNat ∨
        (a.priority = b.priority ∧
          a.next_task_sequenced_time ≤ b.next_task_sequenced_time))) := by
  obtain ⟨ap, ta⟩ := a
  obtain ⟨bp, tb⟩ := b
  cases ap <;> cases bp <;>
    simp [SequenceSortKey.leq, TaskPriority.toNat] <;> omega

/-- C6: a `RefCountedThreadSafe` object is destroyed exactly when its last
reference is released — `Release()` reports destruction (invokes
`Traits::Destruct`) if and only if the reference count reaches zero after the
decrement — and on an object whose count is at least one, an `AddRef()`
followed by a `Release()` destroys nothing and leaves the count unchanged. -/
theorem C6_ref_counted_release_destroys_at_zero (o : RefCountedThreadSafeBase)
    (h : 1 ≤ o.ref_count) :
    ((RefCountedThreadSafe.Release o).1 = true ↔ o.ref_count - 1 = 0) ∧
    (RefCountedThreadSafe.Release o.AddRef).1 = false ∧
    (RefCountedThreadSafe.Release o.AddRef).2.ref_count = o.ref_count := by
  refine ⟨by simp [RefCountedThreadSafe.Release, RefCountedThreadSafeBase.ReleaseImpl], ?_, ?_⟩
  · simp [RefCountedThreadSafe.Release, RefCountedThreadSafeBase.ReleaseImpl,
      RefCountedThreadSafeBase.AddRef]
    omega
  · simp [RefCountedThreadSafe.Release, RefCountedThreadSafeBase.ReleaseImpl,
      RefCountedThreadSafeBase.AddRef]

/-- Witness for the C6 theorem on an object holding exactly one reference. -/
theorem C6_ref_counted_release_destroys_at_zero_witness :
    1 ≤ (RefCountedThreadSafeBase.mk 1).ref_count ∧
    (((RefCountedThreadSafe.Release (RefCountedThreadSafeBase.mk 1)).1 = true ↔
        (RefCountedThreadSafeBase.mk 1).ref_count - 1 = 0) ∧
      (RefCountedThreadSafe.Release (RefCountedThreadSafeBase.mk 1).AddRef).1 = false ∧
      (RefCountedThreadSafe.Release (RefCountedThreadSafeBase.mk 1).AddRef).2.ref_count =
        (RefCountedThreadSafeBase.mk 1).ref_count) :=
  ⟨Nat.le_refl 1,
    C6_ref_counted_release_destroys_at_zero (RefCountedThreadSafeBase.mk 1) (Nat.le_refl 1)⟩

theorem mem_insertByRunTime (t x : DelayedTask) (l : List DelayedTask) :
    x ∈ insertByRunTime t l ↔ x = t ∨ x ∈ l := by
  induction l with
  | nil => simp [insertByRunTime]
  | cons u rest ih =>
    by_cases h : t.delayed_run_time ≤ u.delayed_run_time
    · simp [insertByRunTime, h]
    · simp [insertByRunTime, h, ih]
      tauto

theorem runTimeOrdered_iff (l : List DelayedTask) :
    RunTimeOrdered l ↔
      l.Sorted (fun a b => a.delayed_run_time ≤ b.delayed_run_time) :=
  Iff.rfl

theorem insertByRunTime_sorted (t : DelayedTask) (l : List DelayedTask)
    (h : RunTimeOrdered l) : RunTimeOrdered (insertByRunTime t l) := by
  induction l with
  | nil =>
    rw [runTimeOrdered_iff]
    exact List.sorted_singleton t
  | cons u rest ih =>
    obtain ⟨hu, hrest⟩ := List.sorted_cons.mp h
    rw [runTimeOrdered_iff]
    simp only [insertByRunTime]
    by_cases hc : t.delayed_run_time ≤ u.delayed_run_time
    · rw [if_pos hc]
      refine List.sorted_cons.mpr ⟨?_, List.sorted_cons.mpr ⟨hu, hrest⟩⟩
      intro b hb
      rcases List.mem_cons.mp hb with rfl | hb
      · exact hc
      · exact le_trans hc (hu b hb)
    · rw [if_neg hc]
      refine List.sorted_cons.mpr ⟨?_, (runTimeOrdered_iff _).mp (ih hrest)⟩
      intro b hb
      rcases (mem_insertByRunTime t b rest).mp hb with rfl | hb
      · omega
      · exact hu b hb

theorem dropWhile_ripe_not_ripe (now : Int) (l : List DelayedTask)
    (h : RunTimeOrdered l) :
    ∀ u ∈ l.dropWhile (fun t => t.ripeBy now), ¬ (u.delayed_run_time ≤ now) := by
  induction l with
  | nil => simp
  | cons a rest ih =>
    obtain ⟨ha, hrest⟩ := List.sorted_cons.mp h
    by_cases hr : a.ripeBy now = true
    · rw [List.dropWhile_cons, if_pos hr]
      exact ih hrest
    · rw [List.dropWhile_cons, if_neg hr]
      intro u hu
      have hna : ¬ (a.delayed_run_time ≤ now) := by
        simpa [DelayedTask.ripeBy] using hr
      rcases List.mem_cons.mp hu with rfl | hu
      · exact hna
      · have := ha u hu
        omega

/-- C5: on a queue ordered by `delayed_run_time` (the heap invariant
`AddDelayedTask` maintains, last conjunct), `ProcessRipeTasks` forwards
exactly the entries with `delayed_run_time ≤ now` and keeps exactly the
others; nothing is lost; the forwarding order is `delayed_run_time` order; and
every forwarded task satisfies `post_time + delay ≤ now`, i.e. no task is
forwarded before its delayed run time. -/
theorem C5_process_ripe_tasks_exact (m : DelayedTaskManager) (t : DelayedTask)
    (now : Int) (h : RunTimeOrdered m.delayed_task_queue) :
    (∀ u ∈ (m.ProcessRipeTasks now).1, u.delayed_run_time ≤ now) ∧
    (∀ u ∈ (m.ProcessRipeTasks now).2.delayed_task_queue,
      ¬ (u.delayed_run_time ≤ now)) ∧
    (m.ProcessRipeTasks now).1 ++ (m.ProcessRipeTasks now).2.delayed_task_queue =
      m.delayed_task_queue ∧
    RunTimeOrdered (m.ProcessRipeTasks now).1 ∧
    (∀ u ∈ (m.ProcessRipeTasks now).1, u.post_time + u.delay ≤ now) ∧
    RunTimeOrdered (m.AddDelayedTask t).delayed_task_queue := by
  refine ⟨?_, ?_, ?_, ?_, ?_, ?_⟩
  · intro u hu
    simpa [DelayedTask.ripeBy] using List.mem_takeWhile_imp hu
  · exact dropWhile_ripe_not_ripe now _ h
  · exact List.takeWhile_append_dropWhile _ _
  · exact List.Pairwise.sublist ((List.takeWhile_prefix _).sublist) h
  · intro u hu
    have hru : u.delayed_run_time ≤ now := by
      simpa [DelayedTask.ripeBy] using List.mem_takeWhile_imp hu
    simpa [DelayedTask.delayed_run_time] using hru
  · exact insertByRunTime_sorted t _ h

/-- Witness for the C5 theorem on a concrete one-task queue (a task posted at
time 0 with delay 1) processed at time 2, with a second task then added. -/
theorem C5_process_ripe_tasks_exact_witness :
    RunTimeOrdered (DelayedTaskManager.mk [DelayedTask.mk 0 0 1]).delayed_task_queue ∧
    ((∀ u ∈ ((DelayedTaskManager.mk [DelayedTask.mk 0 0 1]).ProcessRipeTasks 2).1,
        u.delayed_run_time ≤ 2) ∧
      (∀ u ∈ ((DelayedTaskManager.mk
          [DelayedTask.mk 0 0 1]).ProcessRipeTasks 2).2.delayed_task_queue,
        ¬ (u.delayed_run_time ≤ 2)) ∧
      ((DelayedTaskManager.mk [DelayedTask.mk 0 0 1]).ProcessRipeTasks 2).1 ++
          ((DelayedTaskManager.mk
            [DelayedTask.mk 0 0 1]).ProcessRipeTasks 2).2.delayed_task_queue =
        (DelayedTaskManager.mk [DelayedTask.mk 0 0 1]).delayed_task_queue ∧
      RunTimeOrdered ((DelayedTaskManager.mk [DelayedTask.mk 0 0 1]).ProcessRipeTasks 2).1 ∧
      (∀ u ∈ ((DelayedTaskManager.mk [DelayedTask.mk 0 0 1]).ProcessRipeTasks 2).1,
        u.post_time + u.delay ≤ 2) ∧
      RunTimeOrdered ((DelayedTaskManager.mk [DelayedTask.mk 0 0 1]).AddDelayedTask
          (DelayedTask.mk 1 0 5)).delayed_task_queue) :=
  ⟨List.sorted_singleton _,
    C5_process_ripe_tasks_exact (DelayedTaskManager.mk [DelayedTask.mk 0 0 1])
      (DelayedTask.mk 1 0 5) 2 (List.sorted_singleton _)⟩

theorem sequence_inv_init : SequenceInv SequenceSchedState.init :=
  ⟨rfl, Nat.zero_le 1, fun _ => rfl⟩

theorem sequence_inv_step {s s' : SequenceSchedState} (h : SequenceInv s)
    (hs : SequenceStep s s') : SequenceInv s' := by
  obtain ⟨hacc, hlen, htok⟩ := h
  cases hs with
  | post t =>
    refine ⟨?_, hlen, htok⟩
    show s.executed ++ s.inflight ++ (s.queue ++ [t]) = s.posted ++ [t]
    rw [← hacc]
    simp [List.append_assoc]
  | take t rest hw hq =>
    have hin : s.inflight = [] := htok hw
    refine ⟨?_, ?_, ?_⟩
    · show s.executed ++ (s.inflight ++ [t]) ++ rest = s.posted
      rw [← hacc, hin, hq]
      simp
    · show (s.inflight ++ [t]).length ≤ 1
      rw [hin]
      simp
    · intro hfalse
      simp at hfalse
  | complete t rest hin =>
    have hrl : rest.length = 0 := by
      rw [hin] at hlen
      simp only [List.length_cons] at hlen
      omega
    have hr : rest = [] := List.length_eq_zero.mp hrl
    refine ⟨?_, ?_, ?_⟩
    · show (s.executed ++ [t]) ++ rest ++ s.queue = s.posted
      rw [← hacc, hin, hr]
      simp
    · show rest.length ≤ 1
      rw [hr]
      simp
    · intro _
      exact hr

theorem sequence_reachable_inv {s : SequenceSchedState}
    (h : SequenceReachable s) : SequenceInv s := by
  induction h with
  | init => exact sequence_inv_init
  | step _ hstep ih => exact sequence_inv_step ih hstep

/-- C2: in every state reachable by any interleaving of posts, takes and
completions — i.e. with any number of worker threads — the completed tasks,
the in-flight tasks and the still-queued tasks, concatenated in that order,
are exactly the posted tasks in posting order (so tasks execute in FIFO
posting order and none is lost or duplicated), and at most one task of the
Sequence is in flight at any instant (no two tasks of one Sequence run
concurrently). -/
theorem C2_sequence_fifo_and_exclusive (s : SequenceSchedState)
    (h : SequenceReachable s) :
    s.executed ++ (s.inflight ++ s.queue) = s.posted ∧ s.inflight.length ≤ 1 := by
  obtain ⟨hacc, hlen, _⟩ := sequence_reachable_inv h
  exact ⟨by rw [← List.append_assoc, hacc], hlen⟩

/-- Witness for the C2 theorem: the state after posting task 5, a worker
taking it and completing it is reachable, and the theorem's conclusions hold
there. -/
theorem C2_sequence_fifo_and_exclusive_witness :
    SequenceReachable (SequenceSchedState.mk [5] [] [] [5] false) ∧
    ([5] : List Nat) ++ (([] : List Nat) ++ ([] : List Nat)) = [5] ∧
    ([] : List Nat).length ≤ 1 := by
  have h1 : SequenceReachable (SequenceSchedState.mk [5] [5] [] [] false) :=
    SequenceReachable.step SequenceReachable.init
      (SequenceStep.post SequenceSchedState.init 5)
  have h2 : SequenceReachable (SequenceSchedState.mk [5] [] [5] [] true) :=
    SequenceReachable.step h1
      (SequenceStep.take (SequenceSchedState.mk [5] [5] [] [] false) 5 [] rfl rfl)
  have h3 : SequenceReachable (SequenceSchedState.mk [5] [] [] [5] false) :=
    SequenceReachable.step h2
      (SequenceStep.complete (SequenceSchedState.mk [5] [] [5] [] true) 5 [] rfl)
  exact ⟨h3, C2_sequence_fifo_and_exclusive _ h3⟩

end BaseLib
